import Mathlib

/-!
Verification of the 2D prefix-sum maximum-window program (src/main.cpp).

The program reads `n m`, accumulates `n` weighted points into a statically
sized `MAXC x MAXC` integer grid at `s[x+1][y+1]`, transforms the grid in
place into a 2D prefix-sum table, and scans every `m x m` window via the
inclusion-exclusion rectangle-sum formula, printing the maximum sum
(initialized to 0).

The grid is embedded as a total function `Nat -> Nat -> Int`.  The raw C++
array write `s[x+1][y+1] += v` is unchecked; here it is embedded as a
bounds-checked write returning `Option`, so an input whose shifted
coordinates fall outside the array yields `none` (the undefined-behavior
case), and in-bounds inputs yield exactly the C++ grid contents.
-/

/-- Array dimension of the C++ grid: `const int MAXC = 5005`. -/
def MAXC : Nat := 5005

/-- The grid `static int s[MAXC][MAXC]`, embedded as a total function. -/
abbrev Grid : Type := Nat → Nat → Int

/-- The zero-initialized static array. -/
def emptyGrid : Grid := fun _ _ => 0

/-- One ingestion step `s[x+1][y+1] += v`, with the array-bounds check made
explicit: the write succeeds exactly when the shifted indices `x+1`, `y+1`
lie inside `[0, MAXC)`; otherwise the C++ access is out of bounds and the
embedding returns `none`. -/
def writePoint (g : Grid) (x y v : Int) : Option Grid :=
  if 0 ≤ x + 1 ∧ x + 1 < (MAXC : Int) ∧ 0 ≤ y + 1 ∧ y + 1 < (MAXC : Int) then
    some (fun a b => if a = (x + 1).toNat ∧ b = (y + 1).toNat then g a b + v else g a b)
  else none

/-- The ingestion loop: `for (i = 0; i < n; i++) { cin >> x >> y >> v; s[x+1][y+1] += v; }`. -/
def ingest : List (Int × Int × Int) → Grid → Option Grid
  | [], g => some g
  | (x, y, v) :: rest, g =>
    match writePoint g x y v with
    | some g2 => ingest rest g2
    | none => none

/-- One cell update of the in-place prefix-sum pass:
`s[i][j] += s[i-1][j] + s[i][j-1] - s[i-1][j-1]`. -/
def stepCell (g : Grid) (i j : Nat) : Grid :=
  fun a b =>
    if a = i ∧ b = j then g i j + (g (i - 1) j + g i (j - 1) - g (i - 1) (j - 1))
    else g a b

/-- The inner loop `for (j = 1; j < MAXC; j++)` of the prefix-sum pass, for a
fixed row `i`. -/
def rowPass (g : Grid) (i : Nat) : Grid :=
  (List.range' 1 (MAXC - 1)).foldl (fun h j => stepCell h i j) g

/-- The in-place prefix-sum construction
`for (i = 1; i < MAXC; i++) for (j = 1; j < MAXC; j++) s[i][j] += ...`. -/
def buildPrefixSums (g : Grid) : Grid :=
  (List.range' 1 (MAXC - 1)).foldl rowPass g

/-- Index list of a scan loop `for (i = m; i < MAXC; i++)`. -/
def idx (m : Nat) : List Nat := List.range' m (MAXC - m)

/-- The rectangle-sum formula read off the table:
`sum = s[i][j] - s[i-m][j] - s[i][j-m] + s[i-m][j-m]`. -/
def rectSum (g : Grid) (m i j : Nat) : Int :=
  g i j - g (i - m) j - g i (j - m) + g (i - m) (j - m)

/-- Left fold of `max` over a list, threading an accumulator: the shape of the
`ans = max(ans, sum)` loops. -/
def foldMax {α : Type} (f : α → Int) (acc : Int) (l : List α) : Int :=
  l.foldl (fun a x => max a (f x)) acc

/-- Nested `max` fold starting from accumulator `acc`. -/
def foldMax2From {α β : Type} (f : α → β → Int) (acc : Int) (la : List α) (lb : List β) : Int :=
  la.foldl (fun a i => foldMax (f i) a lb) acc

/-- Nested `max` fold with the program's initialization `int ans = 0`. -/
def foldMax2 {α β : Type} (f : α → β → Int) (la : List α) (lb : List β) : Int :=
  foldMax2From f 0 la lb

/-- The scan phase: maximum of `rectSum` over all window anchors
`(i, j) ∈ [m, MAXC) × [m, MAXC)`, starting from `ans = 0`. -/
def maxWindowSum (g : Grid) (m : Nat) : Int :=
  foldMax2 (rectSum g m) (idx m) (idx m)

/-- The whole program: ingest the points, build the prefix sums in place, scan
all windows.  Returns `none` when an ingestion write is out of the array's
bounds (undefined behavior in the C++ source). -/
def run (pts : List (Int × Int × Int)) (m : Nat) : Option Int :=
  match ingest pts emptyGrid with
  | some g => some (maxWindowSum (buildPrefixSums g) m)
  | none => none

/-- A point `(x, y)` is captured by the window anchored at `(i, j)` of side
`m`: its shifted cell `(x+1, y+1)` lies in `(i-m, i] × (j-m, j]`. -/
def captured (m i j : Nat) (x y : Int) : Prop :=
  ((i - m : Nat) : Int) < x + 1 ∧ x + 1 ≤ (i : Int) ∧
    ((j - m : Nat) : Int) < y + 1 ∧ y + 1 ≤ (j : Int)

instance (m i j : Nat) (x y : Int) : Decidable (captured m i j x y) := by
  unfold captured; infer_instance

/-- Direct enumeration of one window's content: the sum, over the ingested
points, of the values captured by the window anchored at `(i, j)`.  This is
the spec's brute-force rectangle sum. -/
def bruteWin : List (Int × Int × Int) → Nat → Nat → Nat → Int
  | [], _, _, _ => 0
  | (x, y, v) :: rest, m, i, j =>
    (if captured m i j x y then v else 0) + bruteWin rest m i j

/-- The spec's brute force: direct enumeration of every window placement,
taking the maximum captured sum (floored at 0 like the program's `ans`). -/
def bruteForce (pts : List (Int × Int × Int)) (m : Nat) : Int :=
  foldMax2 (bruteWin pts m) (idx m) (idx m)

/-- Sum of all ingested point values. -/
def sumValues (pts : List (Int × Int × Int)) : Int :=
  (pts.map (fun p => p.2.2)).sum

/-- The maximum single point value among the ingested points, or 0 when there
are none (the quantity named by claim C6). -/
def maxSingle (pts : List (Int × Int × Int)) : Int :=
  match pts with
  | [] => 0
  | p :: rest => (rest.map (fun q => q.2.2)).foldl max p.2.2

/-- Closed form of the grid after ingestion: cell `(a, b)` accumulates the
values of all points whose shifted coordinates equal `(a, b)`. -/
def accum : List (Int × Int × Int) → Grid
  | [] => fun _ _ => 0
  | (x, y, v) :: rest => fun a b =>
    (if x + 1 = (a : Int) ∧ y + 1 = (b : Int) then v else 0) + accum rest a b

/-- Maximum accumulated cell value over the ingested coordinates, floored at
0 (the corrected quantity for window side `m = 1`). -/
def cellMax (pts : List (Int × Int × Int)) : Int :=
  foldMax (fun p => accum pts ((p.1 + 1).toNat) ((p.2.1 + 1).toNat)) 0 pts

/-- The 2D box sum `∑_{a ≤ i} ∑_{b ≤ j} g a b`: the mathematical prefix sum. -/
def boxSum (g : Grid) (i j : Nat) : Int :=
  ∑ a ∈ Finset.range (i + 1), ∑ b ∈ Finset.range (j + 1), g a b

/-- Valid inputs per the spec's data model: coordinates in `[0, C]` with
`C = 5003`, the largest coordinate whose shifted write stays inside the
array. -/
def ValidPts (pts : List (Int × Int × Int)) : Prop :=
  ∀ p ∈ pts, 0 ≤ p.1 ∧ p.1 ≤ 5003 ∧ 0 ≤ p.2.1 ∧ p.2.1 ≤ 5003

/-- Points whose shifted writes stay inside the array bounds (this also
admits `x = -1` or `y = -1`, which write the margin row/column 0). -/
def InBounds (pts : List (Int × Int × Int)) : Prop :=
  ∀ p ∈ pts, -1 ≤ p.1 ∧ p.1 ≤ 5003 ∧ -1 ≤ p.2.1 ∧ p.2.1 ≤ 5003

instance (pts : List (Int × Int × Int)) : Decidable (ValidPts pts) := by
  unfold ValidPts; exact List.decidableBAll _ pts

instance (pts : List (Int × Int × Int)) : Decidable (InBounds pts) := by
  unfold InBounds; exact List.decidableBAll _ pts

/-! Section: Lemmas about the `max` folds -/

theorem foldMax_nil {α : Type} (f : α → Int) (acc : Int) : foldMax f acc [] = acc := rfl

theorem foldMax_cons {α : Type} (f : α → Int) (acc : Int) (x : α) (l : List α) :
    foldMax f acc (x :: l) = foldMax f (max acc (f x)) l := rfl

theorem le_foldMax_acc {α : Type} (f : α → Int) (l : List α) :
    ∀ acc : Int, acc ≤ foldMax f acc l := by
  induction l with
  | nil => intro acc; exact le_refl acc
  | cons x l ih =>
    intro acc
    calc acc ≤ max acc (f x) := le_max_left _ _
    _ ≤ foldMax f (max acc (f x)) l := ih _

theorem foldMax_le {α : Type} {f : α → Int} {l : List α} {B : Int} :
    ∀ {acc : Int}, acc ≤ B → (∀ x ∈ l, f x ≤ B) → foldMax f acc l ≤ B := by
  induction l with
  | nil => intro acc hacc _; exact hacc
  | cons x l ih =>
    intro acc hacc hf
    rw [foldMax_cons]
    exact ih (max_le hacc (hf x (List.mem_cons_self _ _))) (fun y hy => hf y (List.mem_cons_of_mem _ hy))

theorem foldMax_of_mem {α : Type} {f : α → Int} {l : List α} {x : α} (hx : x ∈ l) :
    ∀ acc : Int, f x ≤ foldMax f acc l := by
  induction l with
  | nil => cases hx
  | cons y l ih =>
    intro acc
    rcases List.mem_cons.mp hx with h | h
    · subst h
      rw [foldMax_cons]
      exact le_trans (le_max_right acc (f x)) (le_foldMax_acc _ _ _)
    · exact ih h _

theorem foldMax_congr {α : Type} {f f' : α → Int} {l : List α}
    (h : ∀ x ∈ l, f x = f' x) : ∀ acc : Int, foldMax f acc l = foldMax f' acc l := by
  induction l with
  | nil => intro acc; rfl
  | cons x l ih =>
    intro acc
    rw [foldMax_cons, foldMax_cons, h x (List.mem_cons_self _ _)]
    exact ih (fun y hy => h y (List.mem_cons_of_mem _ hy)) _

theorem le_foldMax2From_acc {α β : Type} (f : α → β → Int) (la : List α) (lb : List β) :
    ∀ acc : Int, acc ≤ foldMax2From f acc la lb := by
  induction la with
  | nil => intro acc; exact le_refl acc
  | cons i la ih =>
    intro acc
    calc acc ≤ foldMax (f i) acc lb := le_foldMax_acc _ _ _
    _ ≤ foldMax2From f (foldMax (f i) acc lb) la lb := ih _

theorem foldMax2From_le {α β : Type} {f : α → β → Int} {la : List α} {lb : List β} {B : Int} :
    ∀ {acc : Int}, acc ≤ B → (∀ i ∈ la, ∀ j ∈ lb, f i j ≤ B) →
      foldMax2From f acc la lb ≤ B := by
  induction la with
  | nil => intro acc hacc _; exact hacc
  | cons i la ih =>
    intro acc hacc hf
    exact ih (foldMax_le hacc (hf i (List.mem_cons_self _ _)))
      (fun i' hi' => hf i' (List.mem_cons_of_mem _ hi'))

theorem foldMax2From_of_mem {α β : Type} {f : α → β → Int} {la : List α} {lb : List β}
    {i : α} {j : β} (hi : i ∈ la) (hj : j ∈ lb) :
    ∀ acc : Int, f i j ≤ foldMax2From f acc la lb := by
  induction la with
  | nil => cases hi
  | cons i' la ih =>
    intro acc
    rcases List.mem_cons.mp hi with h | h
    · subst h
      exact le_trans (foldMax_of_mem hj acc) (le_foldMax2From_acc _ _ _ _)
    · exact ih h _

theorem foldMax2From_congr {α β : Type} {f f' : α → β → Int} {la : List α} {lb : List β}
    (h : ∀ i ∈ la, ∀ j ∈ lb, f i j = f' i j) :
    ∀ acc : Int, foldMax2From f acc la lb = foldMax2From f' acc la lb := by
  induction la with
  | nil => intro acc; rfl
  | cons i la ih =>
    intro acc
    show foldMax2From f (foldMax (f i) acc lb) la lb
      = foldMax2From f' (foldMax (f' i) acc lb) la lb
    rw [foldMax_congr (h i (List.mem_cons_self _ _))]
    exact ih (fun i' hi' => h i' (List.mem_cons_of_mem _ hi')) _

/-- Membership in a scan index range: `i ∈ idx m` iff `m ≤ i < MAXC`. -/
theorem mem_idx {m i : Nat} : i ∈ idx m ↔ m ≤ i ∧ i ≤ 5004 := by
  unfold idx
  rw [List.mem_range'_1]
  unfold MAXC
  omega

/-! Section: Lemmas about `boxSum` -/

theorem boxSum_rec (g : Grid) {i j : Nat} (hi : 1 ≤ i) (hj : 1 ≤ j) :
    boxSum g i j
      = boxSum g (i - 1) j + boxSum g i (j - 1) - boxSum g (i - 1) (j - 1) + g i j := by
  obtain ⟨i', rfl⟩ : ∃ i', i = i' + 1 := ⟨i - 1, by omega⟩
  obtain ⟨j', rfl⟩ : ∃ j', j = j' + 1 := ⟨j - 1, by omega⟩
  simp only [Nat.add_sub_cancel]
  unfold boxSum
  rw [Finset.sum_range_succ (fun a => ∑ b ∈ Finset.range (j' + 1 + 1), g a b) (i' + 1)]
  rw [Finset.sum_range_succ (g (i' + 1)) (j' + 1)]
  rw [Finset.sum_range_succ (fun a => ∑ b ∈ Finset.range (j' + 1), g a b) (i' + 1)]
  have : ∀ a ∈ Finset.range (i' + 1),
      ∑ b ∈ Finset.range (j' + 1 + 1), g a b
        = (∑ b ∈ Finset.range (j' + 1), g a b) + g a (j' + 1) := by
    intro a _
    exact Finset.sum_range_succ (g a) (j' + 1)
  rw [Finset.sum_congr rfl this, Finset.sum_add_distrib]
  ring

theorem boxSum_zero_of_zero (g : Grid) (hz : ∀ a b, g a b = 0) (i j : Nat) :
    boxSum g i j = 0 := by
  unfold boxSum
  simp [hz]

theorem boxSum_row0 (g : Grid) (hr : ∀ b, g 0 b = 0) (j : Nat) : boxSum g 0 j = 0 := by
  unfold boxSum
  simp [hr]

theorem boxSum_col0 (g : Grid) (hc : ∀ a, g a 0 = 0) (i : Nat) : boxSum g i 0 = 0 := by
  unfold boxSum
  simp [hc]

theorem boxSum_add (g h : Grid) (i j : Nat) :
    boxSum (fun a b => g a b + h a b) i j = boxSum g i j + boxSum h i j := by
  unfold boxSum
  rw [← Finset.sum_add_distrib]
  exact Finset.sum_congr rfl (fun a _ => by rw [← Finset.sum_add_distrib])

theorem boxSum_delta (x y v : Int) (hx : 0 ≤ x + 1) (hy : 0 ≤ y + 1) (i j : Nat) :
    boxSum (fun a b => if x + 1 = (a : Int) ∧ y + 1 = (b : Int) then v else 0) i j
      = if x + 1 ≤ (i : Int) ∧ y + 1 ≤ (j : Int) then v else 0 := by
  unfold boxSum
  have hcond : ∀ a b : Nat, (x + 1 = (a : Int) ∧ y + 1 = (b : Int))
      ↔ (a = (x + 1).toNat ∧ b = (y + 1).toNat) := by
    intro a b
    constructor
    · rintro ⟨h1, h2⟩
      constructor
      · omega
      · omega
    · rintro ⟨h1, h2⟩
      constructor
      · omega
      · omega
  have hrow : ∀ a : Nat,
      (∑ b ∈ Finset.range (j + 1), if x + 1 = (a : Int) ∧ y + 1 = (b : Int) then v else 0)
        = if a = (x + 1).toNat then (if (y + 1).toNat ≤ j then v else 0) else 0 := by
    intro a
    by_cases ha : a = (x + 1).toNat
    · have : ∀ b ∈ Finset.range (j + 1),
          (if x + 1 = (a : Int) ∧ y + 1 = (b : Int) then v else 0)
            = if b = (y + 1).toNat then v else 0 := by
        intro b _
        by_cases hb : b = (y + 1).toNat
        · rw [if_pos ((hcond a b).mpr ⟨ha, hb⟩), if_pos hb]
        · have hneg : ¬(x + 1 = (a : Int) ∧ y + 1 = (b : Int)) :=
            fun hh => hb ((hcond a b).mp hh).2
          rw [if_neg hneg, if_neg hb]
      rw [Finset.sum_congr rfl this, Finset.sum_ite_eq' (Finset.range (j + 1)) ((y + 1).toNat)]
      simp [ha, Finset.mem_range, Nat.lt_succ_iff]
    · have : ∀ b ∈ Finset.range (j + 1),
          (if x + 1 = (a : Int) ∧ y + 1 = (b : Int) then v else 0) = 0 := by
        intro b _
        have : ¬(x + 1 = (a : Int) ∧ y + 1 = (b : Int)) := fun hh => ha ((hcond a b).mp hh).1
        simp [this]
      rw [Finset.sum_congr rfl this]
      simp [ha]
  rw [Finset.sum_congr rfl (fun a _ => hrow a)]
  rw [Finset.sum_ite_eq' (Finset.range (i + 1)) ((x + 1).toNat)]
  simp only [Finset.mem_range, Nat.lt_succ_iff]
  have hxi : (x + 1).toNat ≤ i ↔ x + 1 ≤ (i : Int) := Int.toNat_le
  have hyj : (y + 1).toNat ≤ j ↔ y + 1 ≤ (j : Int) := Int.toNat_le
  by_cases h1 : x + 1 ≤ (i : Int) <;> by_cases h2 : y + 1 ≤ (j : Int) <;>
    simp [h1, h2, hxi, hyj]

/-! Section: Ingestion lemmas -/

theorem valid_inBounds {pts : List (Int × Int × Int)} (hv : ValidPts pts) : InBounds pts := by
  intro p hp
  obtain ⟨h1, h2, h3, h4⟩ := hv p hp
  exact ⟨by omega, h2, by omega, h4⟩

theorem ingest_eq {pts : List (Int × Int × Int)} (hb : InBounds pts) :
    ∀ g : Grid, ingest pts g = some (fun a b => g a b + accum pts a b) := by
  induction pts with
  | nil =>
    intro g
    simp only [ingest, accum]
    congr 1
    funext a b
    simp
  | cons p rest ih =>
    intro g
    obtain ⟨x, y, v⟩ := p
    obtain ⟨h1, h2, h3, h4⟩ := hb _ (List.mem_cons_self _ _)
    dsimp only at h1 h2 h3 h4
    have hrest : InBounds rest := fun q hq => hb q (List.mem_cons_of_mem _ hq)
    have hcond : 0 ≤ x + 1 ∧ x + 1 < (MAXC : Int) ∧ 0 ≤ y + 1 ∧ y + 1 < (MAXC : Int) := by
      unfold MAXC
      push_cast
      omega
    simp only [ingest, writePoint, if_pos hcond]
    show ingest rest _ = _
    rw [ih hrest]
    congr 1
    funext a b
    simp only [accum]
    by_cases hc : x + 1 = (a : Int) ∧ y + 1 = (b : Int)
    · have ha : a = (x + 1).toNat := by omega

      have hb2 : b = (y + 1).toNat := by omega
      rw [if_pos ⟨ha, hb2⟩, if_pos hc]
      ring
    · have hneg : ¬(a = (x + 1).toNat ∧ b = (y + 1).toNat) := by
        rintro ⟨ha, hb2⟩
        exact hc ⟨by omega, by omega⟩
      rw [if_neg hneg, if_neg hc]
      ring

theorem ingest_empty {pts : List (Int × Int × Int)} (hb : InBounds pts) :
    ingest pts emptyGrid = some (accum pts) := by
  rw [ingest_eq hb]
  congr 1
  funext a b
  simp [emptyGrid]

theorem accum_row0 {pts : List (Int × Int × Int)} (hv : ValidPts pts) :
    ∀ b, accum pts 0 b = 0 := by
  induction pts with
  | nil => intro b; rfl
  | cons p rest ih =>
    intro b
    obtain ⟨x, y, v⟩ := p
    obtain ⟨h1, _, _, _⟩ := hv _ (List.mem_cons_self _ _)
    dsimp only at h1
    have hrest : ValidPts rest := fun q hq => hv q (List.mem_cons_of_mem _ hq)
    simp only [accum]
    have hneg : ¬(x + 1 = ((0 : Nat) : Int) ∧ y + 1 = (b : Int)) := by
      rintro ⟨hx, _⟩
      omega
    rw [if_neg hneg, ih hrest]
    ring

theorem accum_col0 {pts : List (Int × Int × Int)} (hv : ValidPts pts) :
    ∀ a, accum pts a 0 = 0 := by
  induction pts with
  | nil => intro a; rfl
  | cons p rest ih =>
    intro a
    obtain ⟨x, y, v⟩ := p
    obtain ⟨_, _, h3, _⟩ := hv _ (List.mem_cons_self _ _)
    dsimp only at h3
    have hrest : ValidPts rest := fun q hq => hv q (List.mem_cons_of_mem _ hq)
    simp only [accum]
    have hneg : ¬(x + 1 = (a : Int) ∧ y + 1 = ((0 : Nat) : Int)) := by
      rintro ⟨_, hy⟩
      omega
    rw [if_neg hneg, ih hrest]
    ring

theorem sumValues_nonneg {pts : List (Int × Int × Int)}
    (h : ∀ p ∈ pts, 0 ≤ p.2.2) : 0 ≤ sumValues pts := by
  induction pts with
  | nil => simp [sumValues]
  | cons p rest ih =>
    have h1 := h p (List.mem_cons_self _ _)
    have h2 := ih (fun q hq => h q (List.mem_cons_of_mem _ hq))
    simp only [sumValues, List.map_cons, List.sum_cons]
    have : sumValues rest = (rest.map (fun p => p.2.2)).sum := rfl
    omega

theorem accum_ne_zero_mem {pts : List (Int × Int × Int)} {a b : Nat}
    (h : accum pts a b ≠ 0) : ∃ p ∈ pts, p.1 + 1 = (a : Int) ∧ p.2.1 + 1 = (b : Int) := by
  induction pts with
  | nil => exact absurd rfl h
  | cons p rest ih =>
    obtain ⟨x, y, v⟩ := p
    by_cases hc : x + 1 = (a : Int) ∧ y + 1 = (b : Int)
    · exact ⟨(x, y, v), List.mem_cons_self _ _, hc⟩
    · have : accum rest a b ≠ 0 := by
        intro h0
        apply h
        simp only [accum, if_neg hc, h0]
        ring
      obtain ⟨q, hq, hq2⟩ := ih this
      exact ⟨q, List.mem_cons_of_mem _ hq, hq2⟩

/-! Section: Characterization of the in-place prefix-sum pass -/

theorem stepCell_other {g : Grid} {i j a b : Nat} (h : ¬(a = i ∧ b = j)) :
    stepCell g i j a b = g a b := by
  unfold stepCell
  rw [if_neg h]

theorem stepCell_self (g : Grid) (i j : Nat) :
    stepCell g i j i j = g i j + (g (i - 1) j + g i (j - 1) - g (i - 1) (j - 1)) := by
  unfold stepCell
  rw [if_pos ⟨rfl, rfl⟩]

/-- Invariant of the inner loop of the prefix-sum pass, processing the cells
`(i, s), (i, s+1), ..., (i, s+n-1)` of row `i`: row `i-1` already holds box
sums, the processed part of row `i` holds box sums, the rest of row `i` still
holds the raw grid. -/
theorem rowPass_aux (g0 : Grid) (i : Nat) (hi : 1 ≤ i) :
    ∀ (n s : Nat) (h : Grid), 1 ≤ s → s + n ≤ MAXC →
      (∀ b, b ≤ MAXC - 1 → h (i - 1) b = boxSum g0 (i - 1) b) →
      (∀ b, s ≤ b → h i b = g0 i b) →
      (∀ b, b < s → h i b = boxSum g0 i b) →
      ((∀ a b, a ≠ i → ((List.range' s n).foldl (fun h' j => stepCell h' i j) h) a b = h a b)
        ∧ (∀ b, s + n ≤ b →
            ((List.range' s n).foldl (fun h' j => stepCell h' i j) h) i b = h i b)
        ∧ (∀ b, b < s + n →
            ((List.range' s n).foldl (fun h' j => stepCell h' i j) h) i b = boxSum g0 i b)) := by
  intro n
  induction n with
  | zero =>
    intro s h hs _ _ _ H3
    refine ⟨fun a b _ => rfl, fun b _ => rfl, fun b hb => H3 b (by omega)⟩
  | succ n ih =>
    intro s h hs hbound Hprev H2 H3
    have hM : MAXC = 5005 := rfl
    rw [List.range'_succ]
    simp only [List.foldl_cons]
    have hstep : stepCell h i s i s = boxSum g0 i s := by
      rw [stepCell_self]
      rw [H2 s (le_refl s)]
      rw [Hprev s (by omega)]
      rw [H3 (s - 1) (by omega)]
      rw [Hprev (s - 1) (by omega)]
      rw [boxSum_rec g0 hi hs]
      ring
    have Hprev' : ∀ b, b ≤ MAXC - 1 → stepCell h i s (i - 1) b = boxSum g0 (i - 1) b := by
      intro b hb
      rw [stepCell_other (by omega)]
      exact Hprev b hb
    have H2' : ∀ b, s + 1 ≤ b → stepCell h i s i b = g0 i b := by
      intro b hb
      rw [stepCell_other (by omega)]
      exact H2 b (by omega)
    have H3' : ∀ b, b < s + 1 → stepCell h i s i b = boxSum g0 i b := by
      intro b hb
      rcases Nat.lt_succ_iff_lt_or_eq.mp hb with hb' | hb'
      · rw [stepCell_other (by omega)]
        exact H3 b hb'
      · subst hb'
        exact hstep
    obtain ⟨C1', C2', C3'⟩ := ih (s + 1) (stepCell h i s) (by omega) (by omega) Hprev' H2' H3'
    refine ⟨?_, ?_, ?_⟩
    · intro a b ha
      rw [C1' a b ha, stepCell_other (by omega)]
    · intro b hb
      rw [C2' b (by omega), stepCell_other (by omega)]
    · intro b hb
      exact C3' b (by omega)

/-- Invariant of the outer loop of the prefix-sum pass, processing rows
`s, s+1, ..., s+n-1`: processed rows hold box sums on the table's column
range, unprocessed rows and row 0 still hold the raw grid. -/
theorem buildAux (g0 : Grid) (hr : ∀ b, g0 0 b = 0) (hc : ∀ a, g0 a 0 = 0) :
    ∀ (n s : Nat) (h : Grid), 1 ≤ s → s + n ≤ MAXC →
      (∀ a b, a < s → 1 ≤ a → b ≤ MAXC - 1 → h a b = boxSum g0 a b) →
      (∀ a b, s ≤ a → h a b = g0 a b) →
      (∀ b, h 0 b = g0 0 b) →
      ((∀ a b, a < s + n → 1 ≤ a → b ≤ MAXC - 1 →
          ((List.range' s n).foldl rowPass h) a b = boxSum g0 a b)
        ∧ (∀ a b, s + n ≤ a → ((List.range' s n).foldl rowPass h) a b = g0 a b)
        ∧ (∀ b, ((List.range' s n).foldl rowPass h) 0 b = g0 0 b)) := by
  intro n
  induction n with
  | zero =>
    intro s h hs _ H1 H2 H0
    exact ⟨fun a b ha h1 hb => H1 a b (by omega) h1 hb, fun a b ha => H2 a b (by omega), H0⟩
  | succ n ih =>
    intro s h hs hbound H1 H2 H0
    have hM : MAXC = 5005 := rfl
    rw [List.range'_succ]
    simp only [List.foldl_cons]
    have hrowAux := rowPass_aux g0 s hs (MAXC - 1) 1 h (le_refl 1) (by omega) ?_ ?_ ?_
    rotate_left
    · intro b hb
      rcases Nat.eq_or_lt_of_le hs with hs1 | hs2
      · have : s - 1 = 0 := by omega
        rw [this, H0 b, hr b, boxSum_row0 g0 hr b]
      · exact H1 (s - 1) b (by omega) (by omega) hb
    · intro b _
      exact H2 s b (le_refl s)
    · intro b hb
      have hb0 : b = 0 := by omega
      subst hb0
      rw [H2 s 0 (le_refl s), hc s, boxSum_col0 g0 hc s]
    obtain ⟨i1, i2, i3⟩ := hrowAux
    have hrowPass : ∀ a b, (rowPass h s) a b = ((List.range' 1 (MAXC - 1)).foldl
        (fun h' j => stepCell h' s j) h) a b := fun a b => rfl
    have hih := ih (s + 1) (rowPass h s) (by omega) (by omega) ?_ ?_ ?_
    rotate_left
    · intro a b ha h1 hb
      rcases Nat.lt_succ_iff_lt_or_eq.mp ha with ha' | ha'
      · rw [hrowPass, i1 a b (by omega)]
        exact H1 a b ha' h1 hb
      · subst ha'
        rw [hrowPass]
        exact i3 b (by omega)
    · intro a b ha
      rw [hrowPass, i1 a b (by omega)]
      exact H2 a b (by omega)
    · intro b
      rw [hrowPass, i1 0 b (by omega)]
      exact H0 b
    obtain ⟨o1, o2, o3⟩ := hih
    refine ⟨?_, ?_, ?_⟩
    · intro a b ha h1 hb
      exact o1 a b (by omega) h1 hb
    · intro a b ha
      exact o2 a b (by omega)
    · exact o3

/-- After the prefix-sum pass, every cell of the table holds the 2D box sum
of the raw grid, provided the raw grid's row 0 and column 0 are zero. -/
theorem buildPrefixSums_eval (g0 : Grid) (hr : ∀ b, g0 0 b = 0) (hc : ∀ a, g0 a 0 = 0)
    {a b : Nat} (ha : a ≤ 5004) (hb : b ≤ 5004) :
    buildPrefixSums g0 a b = boxSum g0 a b := by
  have hM : MAXC = 5005 := rfl
  obtain ⟨o1, o2, o3⟩ := buildAux g0 hr hc (MAXC - 1) 1 g0 (le_refl 1) (by omega)
    (fun a b ha h1 _ => by omega) (fun a b _ => rfl) (fun b => rfl)
  rcases Nat.eq_zero_or_pos a with ha0 | ha1
  · subst ha0
    rw [show buildPrefixSums g0 0 b = g0 0 b from o3 b, hr b, boxSum_row0 g0 hr b]
  · exact o1 a b (by omega) ha1 (by omega)

/-- The prefix-sum pass never writes row 0. -/
theorem buildPrefixSums_row0 (g0 : Grid) : ∀ b, buildPrefixSums g0 0 b = g0 0 b := by
  intro b
  have hM : MAXC = 5005 := rfl
  have haux := rowPass_aux g0
  -- reuse the outer invariant with trivial box-sum claims vacuous is not possible
  -- without the boundary hypotheses, so derive it directly from `buildAux`'s shape:
  -- rows other than those processed are never written.  We re-run the generic
  -- argument: every `rowPass _ i` with `i ≥ 1` leaves row 0 unchanged.
  have key : ∀ (l : List Nat) (h : Grid), (∀ i ∈ l, 1 ≤ i) →
      (l.foldl rowPass h) 0 b = h 0 b := by
    intro l
    induction l with
    | nil => intro h _; rfl
    | cons i l ih =>
      intro h hl
      simp only [List.foldl_cons]
      rw [ih (rowPass h i) (fun j hj => hl j (List.mem_cons_of_mem _ hj))]
      have hi : 1 ≤ i := hl i (List.mem_cons_self _ _)
      have : ∀ (jl : List Nat) (h' : Grid),
          (jl.foldl (fun h'' j => stepCell h'' i j) h') 0 b = h' 0 b := by
        intro jl
        induction jl with
        | nil => intro h'; rfl
        | cons j jl ihj =>
          intro h'
          simp only [List.foldl_cons]
          rw [ihj (stepCell h' i j), stepCell_other (by omega)]
      exact this _ h
  exact key _ g0 (fun i hi => (List.mem_range'_1.mp hi).1)

/-- The prefix-sum pass never writes rows at or beyond `MAXC`. -/
theorem buildPrefixSums_high (g0 : Grid) (hr : ∀ b, g0 0 b = 0) (hc : ∀ a, g0 a 0 = 0)
    {a : Nat} (ha : 5005 ≤ a) (b : Nat) : buildPrefixSums g0 a b = g0 a b := by
  have hM : MAXC = 5005 := rfl
  obtain ⟨o1, o2, o3⟩ := buildAux g0 hr hc (MAXC - 1) 1 g0 (le_refl 1) (by omega)
    (fun a b ha h1 _ => by omega) (fun a b _ => rfl) (fun b => rfl)
  exact o2 a b (by omega)

/-! Section: The rectangle formula equals the brute-force window sum -/

theorem boxSum_accum_cons (x y v : Int) (rest : List (Int × Int × Int))
    (hx : 0 ≤ x + 1) (hy : 0 ≤ y + 1) (i j : Nat) :
    boxSum (accum ((x, y, v) :: rest)) i j
      = (if x + 1 ≤ (i : Int) ∧ y + 1 ≤ (j : Int) then v else 0) + boxSum (accum rest) i j := by
  have hfun : accum ((x, y, v) :: rest)
      = fun (a b : Nat) =>
          (if x + 1 = (a : Int) ∧ y + 1 = (b : Int) then v else 0) + accum rest a b :=
    rfl
  rw [hfun, boxSum_add, boxSum_delta x y v hx hy i j]

theorem boxRect_accum {pts : List (Int × Int × Int)} (hv : ValidPts pts)
    (m i j : Nat) (hmi : m ≤ i) (hmj : m ≤ j) :
    boxSum (accum pts) i j - boxSum (accum pts) (i - m) j - boxSum (accum pts) i (j - m)
      + boxSum (accum pts) (i - m) (j - m) = bruteWin pts m i j := by
  induction pts with
  | nil =>
    have hz : ∀ a b, accum ([] : List (Int × Int × Int)) a b = 0 := fun a b => rfl
    rw [boxSum_zero_of_zero _ hz, boxSum_zero_of_zero _ hz, boxSum_zero_of_zero _ hz,
      boxSum_zero_of_zero _ hz]
    rfl
  | cons p rest ih =>
    obtain ⟨x, y, v⟩ := p
    obtain ⟨h1, h2, h3, h4⟩ := hv _ (List.mem_cons_self _ _)
    dsimp only at h1 h2 h3 h4
    have hrest : ValidPts rest := fun q hq => hv q (List.mem_cons_of_mem _ hq)
    have ihr := ih hrest
    rw [boxSum_accum_cons x y v rest (by omega) (by omega) i j,
      boxSum_accum_cons x y v rest (by omega) (by omega) (i - m) j,
      boxSum_accum_cons x y v rest (by omega) (by omega) i (j - m),
      boxSum_accum_cons x y v rest (by omega) (by omega) (i - m) (j - m)]
    show _ = (if captured m i j x y then v else 0) + bruteWin rest m i j
    have key : (if x + 1 ≤ (i : Int) ∧ y + 1 ≤ (j : Int) then v else 0)
        - (if x + 1 ≤ ((i - m : Nat) : Int) ∧ y + 1 ≤ (j : Int) then v else 0)
        - (if x + 1 ≤ (i : Int) ∧ y + 1 ≤ ((j - m : Nat) : Int) then v else 0)
        + (if x + 1 ≤ ((i - m : Nat) : Int) ∧ y + 1 ≤ ((j - m : Nat) : Int) then v else 0)
        = (if captured m i j x y then v else 0) := by
      unfold captured
      split_ifs <;> omega
    linear_combination key + ihr

/-! Section: The program computes the brute-force maximum -/

theorem run_eq_bruteForce {pts : List (Int × Int × Int)} (hv : ValidPts pts) (m : Nat) :
    run pts m = some (bruteForce pts m) := by
  unfold run
  rw [ingest_empty (valid_inBounds hv)]
  show some (maxWindowSum (buildPrefixSums (accum pts)) m) = _
  apply congrArg some
  have hr := accum_row0 hv
  have hc := accum_col0 hv
  unfold maxWindowSum bruteForce foldMax2
  refine foldMax2From_congr ?_ 0
  intro i hi j hj
  obtain ⟨hi1, hi2⟩ := mem_idx.mp hi
  obtain ⟨hj1, hj2⟩ := mem_idx.mp hj
  unfold rectSum
  rw [buildPrefixSums_eval _ hr hc hi2 hj2,
    buildPrefixSums_eval _ hr hc (by omega) hj2,
    buildPrefixSums_eval _ hr hc hi2 (by omega),
    buildPrefixSums_eval _ hr hc (by omega) (by omega)]
  exact boxRect_accum hv m i j (by omega) (by omega)

/-! Section: Window-sum helper lemmas for the individual claims -/

theorem captured_iff (m i j : Nat) (x y : Int) :
    captured m i j x y
      ↔ (((i - m : Nat) : Int) < x + 1 ∧ x + 1 ≤ (i : Int) ∧
          ((j - m : Nat) : Int) < y + 1 ∧ y + 1 ≤ (j : Int)) := Iff.rfl

/-- A window whose capture region pointwise contains another's captures at
least as much, provided all values are non-negative. -/
theorem bruteWin_le_bruteWin {pts : List (Int × Int × Int)}
    (hnn : ∀ p ∈ pts, 0 ≤ p.2.2) {m1 i j m2 i' j' : Nat}
    (hcap : ∀ p ∈ pts, captured m1 i j p.1 p.2.1 → captured m2 i' j' p.1 p.2.1) :
    bruteWin pts m1 i j ≤ bruteWin pts m2 i' j' := by
  induction pts with
  | nil => exact le_refl 0
  | cons p rest ih =>
    obtain ⟨x, y, v⟩ := p
    have hv0 : (0 : Int) ≤ v := by
      have := hnn _ (List.mem_cons_self _ _)
      dsimp only at this
      exact this
    have hcap0 : captured m1 i j x y → captured m2 i' j' x y := by
      have := hcap _ (List.mem_cons_self _ _)
      dsimp only at this
      exact this
    have h2 := ih (fun q hq => hnn q (List.mem_cons_of_mem _ hq))
      (fun q hq => hcap q (List.mem_cons_of_mem _ hq))
    simp only [bruteWin]
    have h1 : (if captured m1 i j x y then v else 0) ≤ (if captured m2 i' j' x y then v else 0) := by
      split_ifs with hA hB hB
      · exact le_refl v
      · exact absurd (hcap0 hA) hB
      · exact hv0
      · exact le_refl 0
    omega

/-- With window side 1, a window's brute-force content is exactly the
accumulated cell value at its anchor. -/
theorem bruteWin_one {pts : List (Int × Int × Int)} (hv : ValidPts pts)
    {i j : Nat} (hi : 1 ≤ i) (hj : 1 ≤ j) :
    bruteWin pts 1 i j = accum pts i j := by
  induction pts with
  | nil => rfl
  | cons p rest ih =>
    obtain ⟨x, y, v⟩ := p
    obtain ⟨h1, h2, h3, h4⟩ := hv _ (List.mem_cons_self _ _)
    dsimp only at h1 h2 h3 h4
    have hrest : ValidPts rest := fun q hq => hv q (List.mem_cons_of_mem _ hq)
    simp only [bruteWin, accum]
    have hcond : captured 1 i j x y ↔ (x + 1 = (i : Int) ∧ y + 1 = (j : Int)) := by
      rw [captured_iff]
      omega
    rw [if_congr hcond rfl rfl, ih hrest]

/-- With window side 5004 anchored at `(5004, 5004)`, every valid point is
captured, so the brute-force window content is the total value. -/
theorem bruteWin_full {pts : List (Int × Int × Int)} (hv : ValidPts pts) :
    bruteWin pts 5004 5004 5004 = sumValues pts := by
  induction pts with
  | nil => rfl
  | cons p rest ih =>
    obtain ⟨x, y, v⟩ := p
    obtain ⟨h1, h2, h3, h4⟩ := hv _ (List.mem_cons_self _ _)
    dsimp only at h1 h2 h3 h4
    have hrest : ValidPts rest := fun q hq => hv q (List.mem_cons_of_mem _ hq)
    have hcap : captured 5004 5004 5004 x y := by
      rw [captured_iff]
      omega
    simp only [bruteWin, sumValues, List.map_cons, List.sum_cons]
    rw [if_pos hcap, ih hrest]
    rfl

theorem bruteForce_nonneg (pts : List (Int × Int × Int)) (m : Nat) :
    0 ≤ bruteForce pts m := le_foldMax2From_acc _ _ _ 0

/-! Section: The claims -/

/-- Claim C1: for every valid input (points with coordinates in `[0, C]` and
window side `1 ≤ m ≤ C`), the program's printed result equals the maximum,
over all axis-aligned `m × m` window placements, of the sum of the values of
the points captured by that placement, as computed by direct brute-force
enumeration of all windows. -/
theorem claim_C1_run_eq_bruteForce (pts : List (Int × Int × Int)) (m : Nat)
    (hv : ValidPts pts) (hm1 : 1 ≤ m) (hm2 : m ≤ 5003) :
    run pts m = some (bruteForce pts m) :=
  run_eq_bruteForce hv m

theorem claim_C1_witness :
    ValidPts [((2 : Int), (3 : Int), (7 : Int))] ∧ 1 ≤ 1 ∧ 1 ≤ 5003 ∧
      run [((2 : Int), (3 : Int), (7 : Int))] 1
        = some (bruteForce [((2 : Int), (3 : Int), (7 : Int))] 1) :=
  ⟨by decide, by decide, by decide,
    claim_C1_run_eq_bruteForce _ 1 (by decide) (by decide) (by decide)⟩

/-- Claim C2: after `buildPrefixSums` completes, for all table indices
`i, j ≥ 1` the grid satisfies
`table[i][j] = table[i-1][j] + table[i][j-1] - table[i-1][j-1] + rawAccum[i][j]`
(where `rawAccum` is the grid as it stood after ingestion), and row 0 and
column 0 of the grid are identically zero. -/
theorem claim_C2_table_recurrence (pts : List (Int × Int × Int)) (raw : Grid)
    (hv : ValidPts pts) (hing : ingest pts emptyGrid = some raw) :
    (∀ i j, 1 ≤ i → i ≤ 5004 → 1 ≤ j → j ≤ 5004 →
      buildPrefixSums raw i j
        = buildPrefixSums raw (i - 1) j + buildPrefixSums raw i (j - 1)
          - buildPrefixSums raw (i - 1) (j - 1) + raw i j)
    ∧ (∀ k, buildPrefixSums raw 0 k = 0 ∧ buildPrefixSums raw k 0 = 0) := by
  have hraw : raw = accum pts := by
    have h2 := hing.symm.trans (ingest_empty (valid_inBounds hv))
    exact Option.some_injective _ h2
  subst hraw
  have hr := accum_row0 hv
  have hc := accum_col0 hv
  constructor
  · intro i j hi1 hi2 hj1 hj2
    rw [buildPrefixSums_eval _ hr hc hi2 hj2,
      buildPrefixSums_eval _ hr hc (by omega) hj2,
      buildPrefixSums_eval _ hr hc hi2 (by omega),
      buildPrefixSums_eval _ hr hc (by omega) (by omega)]
    rw [boxSum_rec _ hi1 hj1]
  · intro k
    constructor
    · rw [buildPrefixSums_row0]
      exact hr k
    · rcases le_or_lt k 5004 with hk | hk
      · rw [buildPrefixSums_eval _ hr hc hk (by omega)]
        exact boxSum_col0 _ hc k
      · rw [buildPrefixSums_high _ hr hc (by omega)]
        exact hc k

theorem claim_C2_witness :
    ValidPts [((0 : Int), (0 : Int), (1 : Int))] ∧
      ((∀ i j, 1 ≤ i → i ≤ 5004 → 1 ≤ j → j ≤ 5004 →
        buildPrefixSums (accum [((0 : Int), (0 : Int), (1 : Int))]) i j
          = buildPrefixSums (accum [((0 : Int), (0 : Int), (1 : Int))]) (i - 1) j
            + buildPrefixSums (accum [((0 : Int), (0 : Int), (1 : Int))]) i (j - 1)
            - buildPrefixSums (accum [((0 : Int), (0 : Int), (1 : Int))]) (i - 1) (j - 1)
            + accum [((0 : Int), (0 : Int), (1 : Int))] i j)
      ∧ (∀ k, buildPrefixSums (accum [((0 : Int), (0 : Int), (1 : Int))]) 0 k = 0
          ∧ buildPrefixSums (accum [((0 : Int), (0 : Int), (1 : Int))]) k 0 = 0)) :=
  ⟨by decide, claim_C2_table_recurrence _ _ (by decide) (ingest_empty (by decide))⟩

/-- Claim C3: for every fixed set of ingested points whose values are all
non-negative, the result of `maxWindowSum` is monotonically non-decreasing in
the window side `m`: for all `m1 ≤ m2` (both in range), the result for `m1`
is at most the result for `m2`. -/
theorem claim_C3_monotone_in_m (pts : List (Int × Int × Int)) (m1 m2 : Nat) (r1 r2 : Int)
    (hv : ValidPts pts) (hnn : ∀ p ∈ pts, 0 ≤ p.2.2)
    (hm1 : 1 ≤ m1) (h12 : m1 ≤ m2) (hm2 : m2 ≤ 5003)
    (hr1 : run pts m1 = some r1) (hr2 : run pts m2 = some r2) : r1 ≤ r2 := by
  have e1 : r1 = bruteForce pts m1 :=
    Option.some_injective _ (hr1.symm.trans (run_eq_bruteForce hv m1))
  have e2 : r2 = bruteForce pts m2 :=
    Option.some_injective _ (hr2.symm.trans (run_eq_bruteForce hv m2))
  subst e1
  subst e2
  show foldMax2From (bruteWin pts m1) 0 (idx m1) (idx m1)
    ≤ foldMax2From (bruteWin pts m2) 0 (idx m2) (idx m2)
  apply foldMax2From_le (bruteForce_nonneg pts m2)
  intro i hi j hj
  obtain ⟨hi1, hi2⟩ := mem_idx.mp hi
  obtain ⟨hj1, hj2⟩ := mem_idx.mp hj
  have hmi : max i m2 ∈ idx m2 := mem_idx.mpr (by omega)
  have hmj : max j m2 ∈ idx m2 := mem_idx.mpr (by omega)
  have hcap : ∀ p ∈ pts, captured m1 i j p.1 p.2.1 → captured m2 (max i m2) (max j m2) p.1 p.2.1 := by
    intro p hp hcapp
    obtain ⟨hx1, hx2, hy1, hy2⟩ := hv p hp
    rw [captured_iff] at hcapp ⊢
    omega
  calc bruteWin pts m1 i j
      ≤ bruteWin pts m2 (max i m2) (max j m2) := bruteWin_le_bruteWin hnn hcap
    _ ≤ foldMax2From (bruteWin pts m2) 0 (idx m2) (idx m2) := foldMax2From_of_mem hmi hmj 0

theorem claim_C3_witness :
    ValidPts [((0 : Int), (0 : Int), (2 : Int))]
      ∧ (∀ p ∈ [((0 : Int), (0 : Int), (2 : Int))], 0 ≤ p.2.2)
      ∧ bruteForce [((0 : Int), (0 : Int), (2 : Int))] 1
          ≤ bruteForce [((0 : Int), (0 : Int), (2 : Int))] 2 :=
  ⟨by decide, by decide,
    claim_C3_monotone_in_m _ 1 2 _ _ (by decide) (by decide) (by decide) (by decide)
      (by decide) (run_eq_bruteForce (by decide) 1) (run_eq_bruteForce (by decide) 2)⟩

/-- Claim C4 fails as stated: with points at both coordinate extremes, a
window of side `m = C = 5003` spans only 5003 of the 5004 coordinate values
in `[0, 5003]`, so it cannot capture both points and the result falls short
of the total value.  This counterexample evaluates the program on
`(0,0,1), (5003,0,1)` with `m = 5003`: the result is 1, not the total 2. -/
theorem claim_C4_counterexample :
    run [((0 : Int), (0 : Int), (1 : Int)), ((5003 : Int), (0 : Int), (1 : Int))] 5003
      ≠ some (sumValues [((0 : Int), (0 : Int), (1 : Int)), ((5003 : Int), (0 : Int), (1 : Int))]) := by
  have hv : ValidPts [((0 : Int), (0 : Int), (1 : Int)), ((5003 : Int), (0 : Int), (1 : Int))] := by
    decide
  rw [run_eq_bruteForce hv 5003]
  have hbf : bruteForce [((0 : Int), (0 : Int), (1 : Int)), ((5003 : Int), (0 : Int), (1 : Int))] 5003
      = 1 := by
    apply le_antisymm
    · apply foldMax2From_le (by norm_num)
      intro i hi j hj
      simp only [bruteWin, captured_iff]
      split_ifs <;> omega
    · have hmem : (5003 : Nat) ∈ idx 5003 := mem_idx.mpr (by omega)
      have hbw : bruteWin [((0 : Int), (0 : Int), (1 : Int)), ((5003 : Int), (0 : Int), (1 : Int))]
          5003 5003 5003 = 1 := by decide
      calc (1 : Int)
          = bruteWin [((0 : Int), (0 : Int), (1 : Int)), ((5003 : Int), (0 : Int), (1 : Int))]
              5003 5003 5003 := hbw.symm
        _ ≤ _ := foldMax2From_of_mem hmem hmem 0
  rw [hbf]
  intro hcontra
  have h1 : (1 : Int) = sumValues [((0 : Int), (0 : Int), (1 : Int)), ((5003 : Int), (0 : Int), (1 : Int))] :=
    Option.some_injective _ hcontra
  have h2 : sumValues [((0 : Int), (0 : Int), (1 : Int)), ((5003 : Int), (0 : Int), (1 : Int))]
      = 2 := by decide
  omega

/-- Claim C4, amended: a window can span all 5004 usable coordinate values
only at side `m = 5004 = C + 1`; with that window side (one more than the
claimed `m = C`), the program returns exactly the sum of all ingested point
values, for every valid input with non-negative values. -/
theorem claim_C4_amended_full_cover (pts : List (Int × Int × Int))
    (hv : ValidPts pts) (hnn : ∀ p ∈ pts, 0 ≤ p.2.2) :
    run pts 5004 = some (sumValues pts) := by
  rw [run_eq_bruteForce hv 5004]
  apply congrArg some
  have hidx : idx 5004 = [5004] := rfl
  show foldMax2From (bruteWin pts 5004) 0 (idx 5004) (idx 5004) = sumValues pts
  rw [hidx]
  show max 0 (bruteWin pts 5004 5004 5004) = sumValues pts
  rw [bruteWin_full hv]
  exact max_eq_right (sumValues_nonneg hnn)

theorem claim_C4_witness :
    ValidPts [((1 : Int), (2 : Int), (3 : Int))]
      ∧ (∀ p ∈ [((1 : Int), (2 : Int), (3 : Int))], 0 ≤ p.2.2)
      ∧ run [((1 : Int), (2 : Int), (3 : Int))] 5004
          = some (sumValues [((1 : Int), (2 : Int), (3 : Int))]) :=
  ⟨by decide, by decide, claim_C4_amended_full_cover _ (by decide) (by decide)⟩

/-- Claim C5: when several ingested points share the same coordinate, their
values accumulate by addition rather than overwriting; for the input
consisting of points `(3,3,5)` and `(3,3,7)` with `m = 1`, the program
outputs 12. -/
theorem claim_C5_accumulate_same_cell :
    run [((3 : Int), (3 : Int), (5 : Int)), ((3 : Int), (3 : Int), (7 : Int))] 1 = some 12 := by
  have hv : ValidPts [((3 : Int), (3 : Int), (5 : Int)), ((3 : Int), (3 : Int), (7 : Int))] := by
    decide
  rw [run_eq_bruteForce hv 1]
  apply congrArg some
  apply le_antisymm
  · apply foldMax2From_le (by norm_num)
    intro i hi j hj
    simp only [bruteWin, captured_iff]
    split_ifs <;> omega
  · have hmem : (4 : Nat) ∈ idx 1 := mem_idx.mpr (by omega)
    have hbw : bruteWin [((3 : Int), (3 : Int), (5 : Int)), ((3 : Int), (3 : Int), (7 : Int))]
        1 4 4 = 12 := by decide
    calc (12 : Int)
        = bruteWin [((3 : Int), (3 : Int), (5 : Int)), ((3 : Int), (3 : Int), (7 : Int))]
            1 4 4 := hbw.symm
      _ ≤ _ := foldMax2From_of_mem hmem hmem 0

/-- Claim C6 fails as stated: two points at the same coordinate accumulate,
so with `m = 1` the program reports the accumulated cell value, not the
maximum single point value.  On `(0,0,1), (0,0,1)` with `m = 1` the program
outputs 2, while the maximum single point value is 1. -/
theorem claim_C6_counterexample :
    run [((0 : Int), (0 : Int), (1 : Int)), ((0 : Int), (0 : Int), (1 : Int))] 1
      ≠ some (maxSingle [((0 : Int), (0 : Int), (1 : Int)), ((0 : Int), (0 : Int), (1 : Int))]) := by
  have hv : ValidPts [((0 : Int), (0 : Int), (1 : Int)), ((0 : Int), (0 : Int), (1 : Int))] := by
    decide
  rw [run_eq_bruteForce hv 1]
  have hbf : bruteForce [((0 : Int), (0 : Int), (1 : Int)), ((0 : Int), (0 : Int), (1 : Int))] 1
      = 2 := by
    apply le_antisymm
    · apply foldMax2From_le (by norm_num)
      intro i hi j hj
      simp only [bruteWin, captured_iff]
      split_ifs <;> omega
    · have hmem : (1 : Nat) ∈ idx 1 := mem_idx.mpr (by omega)
      have hbw : bruteWin [((0 : Int), (0 : Int), (1 : Int)), ((0 : Int), (0 : Int), (1 : Int))]
          1 1 1 = 2 := by decide
      calc (2 : Int)
          = bruteWin [((0 : Int), (0 : Int), (1 : Int)), ((0 : Int), (0 : Int), (1 : Int))]
              1 1 1 := hbw.symm
        _ ≤ _ := foldMax2From_of_mem hmem hmem 0
  rw [hbf]
  intro hcontra
  have h1 : (2 : Int) = maxSingle [((0 : Int), (0 : Int), (1 : Int)), ((0 : Int), (0 : Int), (1 : Int))] :=
    Option.some_injective _ hcontra
  have h2 : maxSingle [((0 : Int), (0 : Int), (1 : Int)), ((0 : Int), (0 : Int), (1 : Int))]
      = 1 := by decide
  omega

/-- Claim C6, amended: for every valid input, running with window side
`m = 1` returns the maximum accumulated per-coordinate value (points sharing
a coordinate summed together), floored at 0 — rather than the maximum single
point value. -/
theorem claim_C6_amended_cellMax (pts : List (Int × Int × Int)) (hv : ValidPts pts) :
    run pts 1 = some (cellMax pts) := by
  rw [run_eq_bruteForce hv 1]
  apply congrArg some
  have h0cell : (0 : Int) ≤ cellMax pts := le_foldMax_acc _ _ 0
  apply le_antisymm
  · apply foldMax2From_le h0cell
    intro i hi j hj
    obtain ⟨hi1, hi2⟩ := mem_idx.mp hi
    obtain ⟨hj1, hj2⟩ := mem_idx.mp hj
    rw [bruteWin_one hv (by omega) (by omega)]
    by_cases h0 : accum pts i j = 0
    · rw [h0]
      exact h0cell
    · obtain ⟨p, hp, hpx, hpy⟩ := accum_ne_zero_mem h0
      have hax : (p.1 + 1).toNat = i := by omega
      have hay : (p.2.1 + 1).toNat = j := by omega
      rw [← hax, ← hay]
      exact foldMax_of_mem hp 0
  · apply foldMax_le (bruteForce_nonneg pts 1)
    intro p hp
    obtain ⟨hx1, hx2, hy1, hy2⟩ := hv p hp
    have hmi : (p.1 + 1).toNat ∈ idx 1 := mem_idx.mpr (by omega)
    have hmj : (p.2.1 + 1).toNat ∈ idx 1 := mem_idx.mpr (by omega)
    rw [← bruteWin_one hv (by omega) (by omega)]
    exact foldMax2From_of_mem hmi hmj 0

theorem claim_C6_witness :
    ValidPts [((0 : Int), (0 : Int), (5 : Int))]
      ∧ run [((0 : Int), (0 : Int), (5 : Int))] 1
          = some (cellMax [((0 : Int), (0 : Int), (5 : Int))]) :=
  ⟨by decide, claim_C6_amended_cellMax _ (by decide)⟩

/-- Claim C7: the scan returns 0 whenever no window fits (`m ≥ MAXC`) or
every window's rectangle sum is non-positive; in particular an input with no
points yields result 0. -/
theorem claim_C7_zero_floor (pts : List (Int × Int × Int)) (m : Nat) (hv : ValidPts pts) :
    ((∀ i j, m ≤ i → i ≤ 5004 → m ≤ j → j ≤ 5004 →
        rectSum (buildPrefixSums (accum pts)) m i j ≤ 0) → run pts m = some 0)
    ∧ (pts = [] → run pts m = some 0)
    ∧ (5005 ≤ m → run pts m = some 0) := by
  have hrun : run pts m = some (maxWindowSum (buildPrefixSums (accum pts)) m) := by
    unfold run
    rw [ingest_empty (valid_inBounds hv)]
  refine ⟨?_, ?_, ?_⟩
  · intro hle
    rw [hrun]
    apply congrArg some
    apply le_antisymm
    · apply foldMax2From_le (le_refl 0)
      intro i hi j hj
      obtain ⟨hi1, hi2⟩ := mem_idx.mp hi
      obtain ⟨hj1, hj2⟩ := mem_idx.mp hj
      exact hle i j hi1 hi2 hj1 hj2
    · exact le_foldMax2From_acc _ _ _ 0
  · intro hnil
    subst hnil
    rw [hrun]
    apply congrArg some
    apply le_antisymm
    · apply foldMax2From_le (le_refl 0)
      intro i hi j hj
      obtain ⟨hi1, hi2⟩ := mem_idx.mp hi
      obtain ⟨hj1, hj2⟩ := mem_idx.mp hj
      have hz : ∀ a b, accum ([] : List (Int × Int × Int)) a b = 0 := fun _ _ => rfl
      unfold rectSum
      rw [buildPrefixSums_eval _ (fun b => hz 0 b) (fun a => hz a 0) hi2 hj2,
        buildPrefixSums_eval _ (fun b => hz 0 b) (fun a => hz a 0) (by omega) hj2,
        buildPrefixSums_eval _ (fun b => hz 0 b) (fun a => hz a 0) hi2 (by omega),
        buildPrefixSums_eval _ (fun b => hz 0 b) (fun a => hz a 0) (by omega) (by omega)]
      rw [boxSum_zero_of_zero _ hz, boxSum_zero_of_zero _ hz, boxSum_zero_of_zero _ hz,
        boxSum_zero_of_zero _ hz]
      norm_num
    · exact le_foldMax2From_acc _ _ _ 0
  · intro hm
    rw [hrun]
    apply congrArg some
    have hnil : idx m = [] := by
      unfold idx
      have hsub : MAXC - m = 0 := by
        have hM : MAXC = 5005 := rfl
        omega
      rw [hsub]
      rfl
    show foldMax2From (rectSum (buildPrefixSums (accum pts)) m) 0 (idx m) (idx m) = 0
    rw [hnil]
    rfl

theorem claim_C7_witness :
    ValidPts ([] : List (Int × Int × Int)) ∧ run ([] : List (Int × Int × Int)) 3 = some 0 :=
  ⟨by decide, (claim_C7_zero_floor [] 3 (by decide)).2.1 rfl⟩

/-- Claim C8 fails as stated: the coordinate `x = -1` lies outside `[0, C]`,
yet ingestion does not fail — the shifted write lands (in bounds) on the
margin row 0, which the prefix-sum invariant expects to stay zero.  The
point `(-1, 0, 5)` is accepted and writes 5 into grid cell `(0, 1)`. -/
theorem claim_C8_counterexample :
    (ingest [((-1 : Int), (0 : Int), (5 : Int))] emptyGrid).isSome = true
      ∧ (ingest [((-1 : Int), (0 : Int), (5 : Int))] emptyGrid).map (fun g => g 0 1)
          = some 5 := by
  constructor
  · rfl
  · rfl

/-- Claim C8, amended: ingestion (with the array's real bounds made explicit)
fails exactly when a point's shifted coordinate `x+1` or `y+1` leaves
`[0, 5004]` — that is, when `x` or `y` leaves `[-1, 5003]`, not the spec's
`[0, C]`; any point list within `[-1, 5003]` is ingested successfully (with
`x = -1` or `y = -1` silently corrupting the margin row/column 0). -/
theorem claim_C8_amended_bounds :
    (∀ (pts : List (Int × Int × Int)) (g : Grid) (p : Int × Int × Int), p ∈ pts →
        (p.1 + 1 < 0 ∨ (5004 : Int) < p.1 + 1 ∨ p.2.1 + 1 < 0 ∨ (5004 : Int) < p.2.1 + 1) →
        ingest pts g = none)
    ∧ (∀ pts : List (Int × Int × Int), InBounds pts →
        ∃ g, ingest pts emptyGrid = some g) := by
  constructor
  · intro pts
    induction pts with
    | nil =>
      intro g p hp _
      cases hp
    | cons q rest ih =>
      intro g p hp hout
      obtain ⟨x, y, v⟩ := q
      rcases List.mem_cons.mp hp with rfl | hp'
      · dsimp only at hout
        have hfail : ¬(0 ≤ x + 1 ∧ x + 1 < (MAXC : Int) ∧ 0 ≤ y + 1 ∧ y + 1 < (MAXC : Int)) := by
          have hM : (MAXC : Int) = 5005 := by norm_num [MAXC]
          omega
        simp only [ingest, writePoint, if_neg hfail]
      · simp only [ingest]
        cases hw : writePoint g x y v with
        | none => rfl
        | some g2 =>
          show ingest rest g2 = none
          exact ih g2 p hp' hout
  · intro pts hb
    exact ⟨_, ingest_empty hb⟩

theorem claim_C8_witness :
    (((5005 : Int) + 1 < 0 ∨ (5004 : Int) < (5005 : Int) + 1
        ∨ (0 : Int) + 1 < 0 ∨ (5004 : Int) < (0 : Int) + 1)
      ∧ ingest [((5005 : Int), (0 : Int), (1 : Int))] emptyGrid = none)
      ∧ (InBounds [((-1 : Int), (0 : Int), (2 : Int))]
        ∧ ∃ g, ingest [((-1 : Int), (0 : Int), (2 : Int))] emptyGrid = some g) :=
  ⟨⟨by norm_num,
      claim_C8_amended_bounds.1 _ emptyGrid _ (List.mem_cons_self _ _) (by norm_num)⟩,
    ⟨by decide, claim_C8_amended_bounds.2 _ (by decide)⟩⟩

/-- Claim C9: for the input `2 1` followed by points `0 0 1` and `1 1 1`,
the program outputs 1 — a side-1 window covers at most one of the two
points. -/
theorem claim_C9_concrete_two_points :
    run [((0 : Int), (0 : Int), (1 : Int)), ((1 : Int), (1 : Int), (1 : Int))] 1 = some 1 := by
  have hv : ValidPts [((0 : Int), (0 : Int), (1 : Int)), ((1 : Int), (1 : Int), (1 : Int))] := by
    decide
  rw [run_eq_bruteForce hv 1]
  apply congrArg some
  apply le_antisymm
  · apply foldMax2From_le (by norm_num)
    intro i hi j hj
    simp only [bruteWin, captured_iff]
    split_ifs <;> omega
  · have hmem : (1 : Nat) ∈ idx 1 := mem_idx.mpr (by omega)
    have hbw : bruteWin [((0 : Int), (0 : Int), (1 : Int)), ((1 : Int), (1 : Int), (1 : Int))]
        1 1 1 = 1 := by decide
    calc (1 : Int)
        = bruteWin [((0 : Int), (0 : Int), (1 : Int)), ((1 : Int), (1 : Int), (1 : Int))]
            1 1 1 := hbw.symm
      _ ≤ _ := foldMax2From_of_mem hmem hmem 0

/-- Claim C10: the ingestion write `s[x+1][y+1] += v` is unguarded, so in
the total embedding where the write is bounds-checked, the failing branch is
reachable (e.g. the point `(-2, 0, 1)` fails), and is unreachable exactly
under the precondition `0 ≤ x, y ≤ 5003` on every point. -/
theorem claim_C10_ingest_bounds :
    ingest [((-2 : Int), (0 : Int), (1 : Int))] emptyGrid = none
      ∧ ∀ pts : List (Int × Int × Int),
          (∀ p ∈ pts, 0 ≤ p.1 ∧ p.1 ≤ 5003 ∧ 0 ≤ p.2.1 ∧ p.2.1 ≤ 5003) →
          ∃ g, ingest pts emptyGrid = some g := by
  constructor
  · rfl
  · intro pts hvp
    exact ⟨_, ingest_empty (valid_inBounds hvp)⟩

theorem claim_C10_witness :
    (∀ p ∈ [((7 : Int), (8 : Int), (9 : Int))],
        0 ≤ p.1 ∧ p.1 ≤ 5003 ∧ 0 ≤ p.2.1 ∧ p.2.1 ≤ 5003)
      ∧ ∃ g, ingest [((7 : Int), (8 : Int), (9 : Int))] emptyGrid = some g :=
  ⟨by decide, claim_C10_ingest_bounds.2 _ (by decide)⟩
